import Mathlib

/-!
Verification development for the Yantra judge-response pipeline and its
adapters, shallowly embedded from the Python sources:

* `src/nikhil/yantra/domain/monitoring/custom_judge.py`
  (`CustomMetricLlmJudge`: `_extract_json`, `judge` — flatten mode)
* `src/nikhil/yantra/domain/monitoring/llm_judge.py`
  (`DefaultLlmJudge`: `_extract_json`, `judge` — simple mode)
* `src/nikhil/yantra/domain/monitoring/gemini_client.py` (`GeminiClient`)
* `src/nikhil/yantra/domain/monitoring/lm_studio_client.py` (`LMStudioClient`)
* `src/nikhil/yantra/domain/data_versioning/dvc_tracker.py` (`DVCDataTracker`)

Python values flowing through the pipeline are modelled by the inductive
type `Json` (numbers as rationals; the exact bit-level behaviour of Python
floats is irrelevant to every property below, which only carries numbers
through opaquely).  Python `dict`s are association lists with
first-match lookup and overwrite-on-assignment, matching `dict`
semantics for the duplicate-free dictionaries that `json.loads`
produces.  Code that can raise is modelled with `Except PyExn`; a
Python function that cannot raise is modelled as a total function.
-/

/-- Left brace character, written via its code point. -/
def lbrace : Char := Char.ofNat 123

/-- Right brace character, written via its code point. -/
def rbrace : Char := Char.ofNat 125

/-- Single-quote (apostrophe) character, used by Python `repr`. -/
def squote : Char := Char.ofNat 39

/-- Model of a Python value produced by `json.loads` (and of the values a
caller may put into a `rules` mapping): `None`, `bool`, `int`/`float`
(as `ℚ`), `str`, `list`, `dict` with string keys. -/
inductive Json where
  | null : Json
  | bool (b : Bool) : Json
  | num (q : ℚ) : Json
  | str (s : String) : Json
  | arr (elts : List Json) : Json
  | obj (fields : List (String × Json)) : Json

/-- A Python dictionary with string keys, as an association list in
insertion order. -/
abbrev Record := List (String × Json)

/-- Python `d[key]` / `d.get(key)` lookup: first match wins (real dicts
never hold a duplicate key). -/
def dictGet : Record → String → Option Json
  | [], _ => none
  | (k, v) :: rest, key => if k = key then some v else dictGet rest key

/-- Python `d[key] = v`: overwrite in place if the key is present,
append otherwise. -/
def dictInsert (d : Record) (key : String) (v : Json) : Record :=
  if (dictGet d key).isSome then
    d.map (fun kv => if kv.1 = key then (key, v) else kv)
  else
    d ++ [(key, v)]

/-- Python truthiness of a modelled value (`if x:`). -/
def truthy : Json → Bool
  | .null => false
  | .bool b => b
  | .num q => q != 0
  | .str s => s != ""
  | .arr elts => !elts.isEmpty
  | .obj fields => !fields.isEmpty

/-- The `isinstance(v, (str, int, float, bool))` test of
`CustomMetricLlmJudge.judge` (line 80): true exactly for strings,
numbers and booleans; `None`, lists and dicts fail it. -/
def isScalar : Json → Bool
  | .str _ => true
  | .num _ => true
  | .bool _ => true
  | _ => false

/-- Rendering of a modelled number by Python `str`/`json.dumps`:
integral values print without a fractional part.  (Non-integral values
use the rational `num/den` rendering; the decimal rendering of Python
floats is a floating-point concern that no verified property touches.) -/
def numRepr (q : ℚ) : String :=
  if q.den = 1 then toString q.num else toString q

mutual

/-- Python `repr` of a modelled value, as used for elements inside
containers.  Quote-escaping inside `repr` of strings is not modelled (no
property below depends on it). -/
def pyRepr : Json → String
  | .null => "None"
  | .bool true => "True"
  | .bool false => "False"
  | .num q => numRepr q
  | .str s => String.singleton squote ++ s ++ String.singleton squote
  | .arr elts => "[" ++ pyReprList elts ++ "]"
  | .obj fields => "\x7b" ++ pyReprFields fields ++ "\x7d"

/-- Comma-separated `repr`s of list elements. -/
def pyReprList : List Json → String
  | [] => ""
  | [x] => pyRepr x
  | x :: y :: rest => pyRepr x ++ ", " ++ pyReprList (y :: rest)

/-- Comma-separated `'key': repr(value)` renderings of dict entries. -/
def pyReprFields : List (String × Json) → String
  | [] => ""
  | [(k, v)] =>
      String.singleton squote ++ k ++ String.singleton squote ++ ": " ++ pyRepr v
  | (k, v) :: e :: rest =>
      String.singleton squote ++ k ++ String.singleton squote ++ ": " ++ pyRepr v ++
        ", " ++ pyReprFields (e :: rest)

end

/-- Python `str(v)` as used by the f-string `f"{metric_name}_score"`:
strings render bare, everything else as its `repr`. -/
def pyStr (v : Json) : String :=
  match v with
  | .str s => s
  | v => pyRepr v

/-- Python `str.lower()` for the ASCII keys the pipeline meets,
character by character. -/
def pyLower (s : String) : String := String.mk (s.data.map Char.toLower)

/-- Python `str.strip()` whitespace test, for the ASCII whitespace the
pipeline ever meets. -/
def isPyWs (c : Char) : Bool :=
  c = ' ' || c = '\t' || c = '\n' || c = '\r' ||
    c = Char.ofNat 11 || c = Char.ofNat 12

/-- Python `text.strip()` on a list of characters. -/
def pyStrip (cs : List Char) : List Char :=
  ((cs.dropWhile isPyWs).reverse.dropWhile isPyWs).reverse

/-- Steps 37–43 of `CustomMetricLlmJudge._extract_json`: strip
surrounding whitespace, then drop a leading ```` ```json ```` marker, a
leading ```` ``` ```` marker, and a trailing ```` ``` ```` marker, each
independently. -/
def stripFences (cs : List Char) : List Char :=
  let t0 := pyStrip cs
  let t1 := if ("```json".data).isPrefixOf t0 then t0.drop 7 else t0
  let t2 := if ("```".data).isPrefixOf t1 then t1.drop 3 else t1
  if ("```".data).isSuffixOf t2 then t2.take (t2.length - 3) else t2

/-- Semantics of `re.search(r"(\{.*\})", text, re.DOTALL)`: the regex
matches iff some `\x7b` occurs strictly before some `\x7d`, i.e. iff the
first `\x7b` precedes the last `\x7d`; the leftmost-longest match then
runs from the first `\x7b` through the last `\x7d`. -/
def reSearchBraces (cs : List Char) : Option (List Char) :=
  match cs.findIdx? (fun c => c = lbrace) with
  | none => none
  | some i =>
    match cs.reverse.findIdx? (fun c => c = rbrace) with
    | none => none
    | some k =>
      let j := cs.length - 1 - k
      if i < j then some ((cs.drop i).take (j - i + 1)) else none

/-! ## Model of `json.loads`

Strict parsing per RFC 8259, as performed by the Python standard
library's `json.loads`: a single value, optional surrounding JSON
whitespace, nothing after it.  Duplicate object keys keep the last
value (Python builds the dict by successive assignment).  Not modelled:
the nonstandard `NaN`/`Infinity` extensions (no rational value exists —
a floating-point concern outside every property below) and the
combining of `\u` surrogate pairs. -/

/-- JSON whitespace (the four characters `json.decoder.WHITESPACE`
skips). -/
def jsonWsChar (c : Char) : Bool :=
  c = ' ' || c = '\t' || c = '\n' || c = '\r'

/-- Drop leading JSON whitespace. -/
def skipJsonWs (cs : List Char) : List Char := cs.dropWhile jsonWsChar

/-- Value of a hexadecimal digit, if it is one. -/
def hexVal (c : Char) : Option Nat :=
  if '0' ≤ c && c ≤ '9' then some (c.toNat - 48)
  else if 'a' ≤ c && c ≤ 'f' then some (c.toNat - 87)
  else if 'A' ≤ c && c ≤ 'F' then some (c.toNat - 55)
  else none

/-- Parse the body of a JSON string after its opening quote, returning
the decoded string and the rest of the input.  Strict mode: an
unescaped control character (below `0x20`) is refused. -/
def parseStringBody : List Char → Option (String × List Char)
  | [] => none
  | c :: rest =>
    if c = '"' then some ("", rest)
    else if c = '\\' then
      match rest with
      | [] => none
      | e :: rest2 =>
        if e = '"' || e = '\\' || e = '/' then
          (parseStringBody rest2).map (fun p => (String.singleton e ++ p.1, p.2))
        else if e = 'b' then
          (parseStringBody rest2).map (fun p => (String.singleton (Char.ofNat 8) ++ p.1, p.2))
        else if e = 'f' then
          (parseStringBody rest2).map (fun p => (String.singleton (Char.ofNat 12) ++ p.1, p.2))
        else if e = 'n' then
          (parseStringBody rest2).map (fun p => (String.singleton (Char.ofNat 10) ++ p.1, p.2))
        else if e = 'r' then
          (parseStringBody rest2).map (fun p => (String.singleton (Char.ofNat 13) ++ p.1, p.2))
        else if e = 't' then
          (parseStringBody rest2).map (fun p => (String.singleton (Char.ofNat 9) ++ p.1, p.2))
        else if e = 'u' then
          match rest2 with
          | h1 :: h2 :: h3 :: h4 :: rest3 =>
            match hexVal h1, hexVal h2, hexVal h3, hexVal h4 with
            | some a, some b, some c', some d =>
              (parseStringBody rest3).map
                (fun p =>
                  (String.singleton (Char.ofNat (((a * 16 + b) * 16 + c') * 16 + d)) ++ p.1,
                    p.2))
            | _, _, _, _ => none
          | _ => none
        else none
    else if c.toNat < 32 then none
    else (parseStringBody rest).map (fun p => (String.singleton c ++ p.1, p.2))

/-- Numeric value of a digit string. -/
def digitsToNat (ds : List Char) : Nat :=
  ds.foldl (fun a c => a * 10 + (c.toNat - 48)) 0

/-- Parse a JSON number per the grammar `-? (0 | [1-9][0-9]*) frac?
exp?`, returning its rational value and the rest of the input.  The
value is built as `±mantissa · 10^(exp − fracLen)` through `mkRat`, so
it is the exact decimal the text denotes. -/
def parseNumber (cs : List Char) : Option (ℚ × List Char) :=
  let signed := match cs with
    | c :: rest => if c = '-' then (true, rest) else (false, cs)
    | [] => (false, cs)
  let neg := signed.1
  let cs1 := signed.2
  let intDigits := cs1.takeWhile Char.isDigit
  let cs2 := cs1.dropWhile Char.isDigit
  if intDigits.isEmpty then none
  else if intDigits.head? = some '0' && intDigits.length > 1 then none
  else
    let fracStep : Option (List Char × List Char) := match cs2 with
      | c :: cs3 =>
        if c = '.' then
          let fracDigits := cs3.takeWhile Char.isDigit
          if fracDigits.isEmpty then none
          else some (fracDigits, cs3.dropWhile Char.isDigit)
        else some ([], cs2)
      | [] => some ([], cs2)
    match fracStep with
    | none => none
    | some (fracDigits, cs4) =>
      let expStep : Option (Int × List Char) := match cs4 with
        | c :: cs5 =>
          if c = 'e' || c = 'E' then
            let esigned := match cs5 with
              | d :: cs6 => if d = '-' then (true, cs6) else if d = '+' then (false, cs6)
                  else (false, cs5)
              | [] => (false, cs5)
            let expDigits := esigned.2.takeWhile Char.isDigit
            if expDigits.isEmpty then none
            else
              let e : Int := if esigned.1 then Int.neg (Int.ofNat (digitsToNat expDigits))
                else Int.ofNat (digitsToNat expDigits)
              some (e, esigned.2.dropWhile Char.isDigit)
          else some (Int.ofNat 0, cs4)
        | [] => some (Int.ofNat 0, cs4)
      match expStep with
      | none => none
      | some (e, cs6) =>
        let mantissa := digitsToNat (intDigits ++ fracDigits)
        let decExp : Int := Int.sub e (Int.ofNat fracDigits.length)
        let q : ℚ :=
          if Int.ofNat 0 ≤ decExp then
            mkRat (Int.ofNat (mantissa * 10 ^ decExp.toNat)) 1
          else
            mkRat (Int.ofNat mantissa) (10 ^ (Int.neg decExp).toNat)
        some (if neg then Rat.neg q else q, cs6)

mutual

/-- Fuel-indexed parser for one JSON value (with leading whitespace),
returning the value and the rest of the input. -/
def parseValue : Nat → List Char → Option (Json × List Char)
  | 0, _ => none
  | fuel + 1, cs =>
    match skipJsonWs cs with
    | [] => none
    | c :: rest =>
      if c = '"' then
        (parseStringBody rest).map (fun p => (.str p.1, p.2))
      else if c = lbrace then
        match skipJsonWs rest with
        | d :: rest2 =>
          if d = rbrace then some (.obj [], rest2)
          else parseMembers fuel (d :: rest2) []
        | [] => none
      else if c = '[' then
        match skipJsonWs rest with
        | ']' :: rest2 => some (.arr [], rest2)
        | _ => parseElems fuel (skipJsonWs rest) []
      else if c = 't' then
        if ("rue".data).isPrefixOf rest then some (.bool true, rest.drop 3) else none
      else if c = 'f' then
        if ("alse".data).isPrefixOf rest then some (.bool false, rest.drop 4) else none
      else if c = 'n' then
        if ("ull".data).isPrefixOf rest then some (.null, rest.drop 3) else none
      else
        (parseNumber (c :: rest)).map (fun p => (.num p.1, p.2))

/-- Fuel-indexed parser for the members of an object, positioned at the
first character of a member (no leading whitespace).  Accumulates by
dict assignment, so a repeated key keeps the last value. -/
def parseMembers : Nat → List Char → Record → Option (Json × List Char)
  | 0, _, _ => none
  | fuel + 1, cs, acc =>
    match cs with
    | c :: rest =>
      if c = '"' then
        match parseStringBody rest with
        | some (k, r1) =>
          match skipJsonWs r1 with
          | d :: r2 =>
            if d = ':' then
              match parseValue fuel r2 with
              | some (v, r3) =>
                let acc2 := dictInsert acc k v
                match skipJsonWs r3 with
                | s :: r4 =>
                  if s = ',' then parseMembers fuel (skipJsonWs r4) acc2
                  else if s = rbrace then some (.obj acc2, r4)
                  else none
                | [] => none
              | none => none
            else none
          | [] => none
        | none => none
      else none
    | [] => none

/-- Fuel-indexed parser for the elements of an array, positioned at the
first character of an element (no leading whitespace). -/
def parseElems : Nat → List Char → List Json → Option (Json × List Char)
  | 0, _, _ => none
  | fuel + 1, cs, acc =>
    match parseValue fuel cs with
    | some (v, r1) =>
      match skipJsonWs r1 with
      | s :: r2 =>
        if s = ',' then parseElems fuel (skipJsonWs r2) (acc ++ [v])
        else if s = ']' then some (.arr (acc ++ [v]), r2)
        else none
      | [] => none
    | none => none

end

/-- Model of `json.loads`: parse one value and require only whitespace
after it. -/
def jsonParse (cs : List Char) : Option Json :=
  match parseValue (cs.length + 1) cs with
  | some (v, rest) => if (skipJsonWs rest).isEmpty then some v else none
  | none => none

namespace CustomMetricLlmJudge

/-- Embedding of `CustomMetricLlmJudge._extract_json` (custom_judge.py
lines 32–50): strip whitespace and code fences, then take the greedy
brace span if the regex matches, else return the stripped text.  The
`try`/`except` wrapper is dead code — no step can raise — so the
function is total. -/
def extract_json (cs : List Char) : List Char :=
  let t := stripFences cs
  match reSearchBraces t with
  | some s => s
  | none => t

end CustomMetricLlmJudge

namespace DefaultLlmJudge

/-- Embedding of `DefaultLlmJudge._extract_json` (llm_judge.py lines
25–34): the greedy brace span of the raw text — no stripping, no fence
handling — else the text unchanged. -/
def extract_json (cs : List Char) : List Char :=
  match reSearchBraces cs with
  | some s => s
  | none => cs

end DefaultLlmJudge

/-! ## Serialization (`json.dumps`) and `str.format` -/

/-- Lowercase hexadecimal digit. -/
def hexDigitChar (n : Nat) : Char :=
  if n < 10 then Char.ofNat (48 + n) else Char.ofNat (87 + (n - 10))

/-- Four-digit `\uXXXX` escape. -/
def uEscape (n : Nat) : String :=
  "\\u" ++ String.mk [hexDigitChar (n / 4096 % 16), hexDigitChar (n / 256 % 16),
    hexDigitChar (n / 16 % 16), hexDigitChar (n % 16)]

/-- Escape of one character inside a `json.dumps` string literal
(`ensure_ascii` default; code points above `0xFFFF`, which Python
writes as surrogate pairs, are not modelled). -/
def jsonEscapeChar (c : Char) : String :=
  if c = '"' then "\\\""
  else if c = '\\' then "\\\\"
  else if c = Char.ofNat 10 then "\\n"
  else if c = Char.ofNat 9 then "\\t"
  else if c = Char.ofNat 13 then "\\r"
  else if c = Char.ofNat 8 then "\\b"
  else if c = Char.ofNat 12 then "\\f"
  else if c.toNat < 32 || c.toNat > 127 then uEscape c.toNat
  else String.singleton c

/-- Rendering of a string by `json.dumps`. -/
def jsonDumpString (s : String) : String :=
  "\"" ++ String.join (s.data.map jsonEscapeChar) ++ "\""

/-- Repeated spaces, for `indent=2` output. -/
def spaces (n : Nat) : String := String.mk (List.replicate n ' ')

mutual

/-- Value rendering of `json.dumps(v, indent=2)` at a nesting level. -/
def jsonDumpsIndentVal (level : Nat) : Json → String
  | .null => "null"
  | .bool true => "true"
  | .bool false => "false"
  | .num q => numRepr q
  | .str s => jsonDumpString s
  | .arr [] => "[]"
  | .arr (x :: xs) =>
      "[\n" ++ jsonDumpsIndentElems (level + 1) (x :: xs) ++ "\n" ++
        spaces (2 * level) ++ "]"
  | .obj [] => "\x7b\x7d"
  | .obj (f :: fs) =>
      "\x7b\n" ++ jsonDumpsIndentFields (level + 1) (f :: fs) ++ "\n" ++
        spaces (2 * level) ++ "\x7d"

/-- Indented, comma-separated array elements. -/
def jsonDumpsIndentElems (level : Nat) : List Json → String
  | [] => ""
  | [x] => spaces (2 * level) ++ jsonDumpsIndentVal level x
  | x :: y :: rest =>
      spaces (2 * level) ++ jsonDumpsIndentVal level x ++ ",\n" ++
        jsonDumpsIndentElems level (y :: rest)

/-- Indented, comma-separated object members. -/
def jsonDumpsIndentFields (level : Nat) : List (String × Json) → String
  | [] => ""
  | [(k, v)] =>
      spaces (2 * level) ++ jsonDumpString k ++ ": " ++ jsonDumpsIndentVal level v
  | (k, v) :: e :: rest =>
      spaces (2 * level) ++ jsonDumpString k ++ ": " ++ jsonDumpsIndentVal level v ++
        ",\n" ++ jsonDumpsIndentFields level (e :: rest)

end

/-- Model of `json.dumps(v, indent=2)` as called by both judges on the
`rules` mapping. -/
def jsonDumpsIndent2 (v : Json) : String := jsonDumpsIndentVal 0 v

mutual

/-- Value rendering of compact `json.dumps(v)` (default separators
`", "` and `": "`). -/
def jsonDumpsCompactVal : Json → String
  | .null => "null"
  | .bool true => "true"
  | .bool false => "false"
  | .num q => numRepr q
  | .str s => jsonDumpString s
  | .arr elts => "[" ++ jsonDumpsCompactElems elts ++ "]"
  | .obj fields => "\x7b" ++ jsonDumpsCompactFields fields ++ "\x7d"

/-- Compact comma-separated array elements. -/
def jsonDumpsCompactElems : List Json → String
  | [] => ""
  | [x] => jsonDumpsCompactVal x
  | x :: y :: rest => jsonDumpsCompactVal x ++ ", " ++ jsonDumpsCompactElems (y :: rest)

/-- Compact comma-separated object members. -/
def jsonDumpsCompactFields : List (String × Json) → String
  | [] => ""
  | [(k, v)] => jsonDumpString k ++ ": " ++ jsonDumpsCompactVal v
  | (k, v) :: e :: rest =>
      jsonDumpString k ++ ": " ++ jsonDumpsCompactVal v ++ ", " ++
        jsonDumpsCompactFields (e :: rest)

end

/-- Model of compact `json.dumps(v)`. -/
def jsonDumpsCompact (v : Json) : String := jsonDumpsCompactVal v

/-- Specialization of `template.format(rules=..., prompt=...)` for
templates whose only brace syntax is the two placeholders `\x7bprompt\x7d`
and `\x7brules\x7d` — true of both judges' `DEFAULT_TEMPLATE`s.  The scan
is a single left-to-right pass, so substituted text is never itself
scanned, exactly as `str.format` behaves.  Fuel-indexed; a fuel of the
input length always suffices since every step consumes a character. -/
def pyFormat2 : Nat → List Char → String → String → List Char
  | 0, cs, _, _ => cs
  | fuel + 1, cs, pv, rv =>
    if ("\x7bprompt\x7d".data).isPrefixOf cs then pv.data ++ pyFormat2 fuel (cs.drop 8) pv rv
    else if ("\x7brules\x7d".data).isPrefixOf cs then rv.data ++ pyFormat2 fuel (cs.drop 7) pv rv
    else
      match cs with
      | [] => []
      | c :: rest => c :: pyFormat2 fuel rest pv rv

/-! ## Exceptions and the judge pipeline -/

/-- Python single-quote string, for building the template literals. -/
def pyQuote : String := String.singleton squote

/-- Exceptions the modelled pipeline can raise. -/
inductive PyExn where
  | attributeError : PyExn
  | connectionError : PyExn
  | httpError : PyExn
  | jsonDecodeError : PyExn
deriving DecidableEq

/-- Lines 79–81 of `CustomMetricLlmJudge.judge`: copy every top-level
field whose value passes the `isinstance` scalar test into the (fresh)
flat result, by dict assignment in iteration order. -/
def scalarStep (acc : Record) (kv : String × Json) : Record :=
  if isScalar kv.2 then dictInsert acc kv.1 kv.2 else acc

/-- The iteration itself, starting from the fresh `flat_result`. -/
def flattenScalars (fields : Record) : Record :=
  fields.foldl scalarStep []

/-- Lines 87–95 of `CustomMetricLlmJudge.judge`, the body of the
evaluation loop for one item that is a dict: read `metricName`, `score`
and `rationale` (each `None` when absent), and when `metricName` is
truthy assign the two flat keys. -/
def flattenItem (acc : Record) (item : Record) : Record :=
  let metric_name := (dictGet item "metricName").getD .null
  let score := (dictGet item "score").getD .null
  let rationale := (dictGet item "rationale").getD .null
  if truthy metric_name then
    dictInsert (dictInsert acc (pyStr metric_name ++ "_score") score)
      (pyStr metric_name ++ "_rationale") rationale
  else acc

/-- Line 86 of `CustomMetricLlmJudge.judge`: the `for item in
evaluations` loop.  `item.get` on a non-dict raises `AttributeError`,
which the surrounding `except json.JSONDecodeError` does not catch. -/
def flattenItems : Record → List Json → Except PyExn Record
  | acc, [] => .ok acc
  | acc, .obj ifields :: rest => flattenItems (flattenItem acc ifields) rest
  | _, _ :: _ => .error .attributeError

/-- The flat keys one evaluation item contributes: its
`<metricName>_score` and `<metricName>_rationale` when `metricName` is
truthy, none otherwise (and none for a non-dict item). -/
def itemKeys : Json → List String
  | .obj ifields =>
    let mn := (dictGet ifields "metricName").getD .null
    if truthy mn then [pyStr mn ++ "_score", pyStr mn ++ "_rationale"] else []
  | _ => []

/-- All flat keys an evaluation list contributes. -/
def emittedKeys (items : List Json) : List String := (items.map itemKeys).flatten

namespace CustomMetricLlmJudge

/-- Lines 70–109 of `CustomMetricLlmJudge.judge` given the outcome of
`json.loads(clean_output)`: the parse-and-normalize (flatten-mode) step.
On parse failure the `except` clause returns the error record; on
success, `.items()` on a non-dict raises `AttributeError`; otherwise
scalars are copied, the `evaluation` value (defaulting to `[]`) is
flattened when it is a list, and `raw_llm_json` is set last. -/
def normalizeParsed (parsed : Option Json) (rawOutput cleanOutput : String) :
    Except PyExn Record :=
  match parsed with
  | none => .ok [("error", .str "Failed to parse Judge output"),
      ("raw_output", .str rawOutput)]
  | some (.obj fields) =>
    let flat := flattenScalars fields
    match (dictGet fields "evaluation").getD (.arr []) with
    | .arr items =>
      match flattenItems flat items with
      | .ok r => .ok (dictInsert r "raw_llm_json" (.str cleanOutput))
      | .error e => .error e
    | _ => .ok (dictInsert flat "raw_llm_json" (.str cleanOutput))
  | some _ => .error .attributeError

/-- Parse-and-normalize on the extracted text. -/
def normalize (rawOutput cleanOutput : String) : Except PyExn Record :=
  normalizeParsed (jsonParse cleanOutput.data) rawOutput cleanOutput

/-- The `DEFAULT_TEMPLATE` literal of custom_judge.py lines 11–26. -/
def DEFAULT_TEMPLATE : String :=
  "You are an impartial evaluation judge.\n" ++
  "Your task is to evaluate the following input based on the provided metrics configuration.\n\n" ++
  "### Input to Evaluate:\n" ++
  "\x7bprompt\x7d\n\n" ++
  "### Metrics Configuration:\n" ++
  "\x7brules\x7d\n\n" ++
  "### Instructions:\n" ++
  "1. Analyze the input against each metric defined in the configuration.\n" ++
  "2. Provide a score and a rationale for each metric.\n" ++
  "3. Your output MUST be a valid JSON object matching the expected structure.\n" ++
  "4. The output must contain an " ++ pyQuote ++ "evaluation" ++ pyQuote ++
    " key which is a list of objects, each containing " ++ pyQuote ++ "metricName" ++ pyQuote ++
    ", " ++ pyQuote ++ "score" ++ pyQuote ++ ", and " ++ pyQuote ++ "rationale" ++ pyQuote ++ ".\n" ++
  "5. Do NOT include any markdown formatting (like ```json ... ```) in your response, just the raw JSON string.\n" ++
  "\n" ++
  "### Output JSON:\n"

/-- Line 58: `self.prompt_template.format(rules=json.dumps(rules,
indent=2), prompt=prompt)` with the default template. -/
def metaPrompt (prompt : String) (rules : Json) : String :=
  String.mk (pyFormat2 DEFAULT_TEMPLATE.length DEFAULT_TEMPLATE.data prompt
    (jsonDumpsIndent2 rules))

/-- Embedding of `CustomMetricLlmJudge.judge` (lines 52–109) for a
backend that honours its contract, i.e. a total `gen : String → String`:
render the meta-prompt, call the backend, extract, parse and
normalize. -/
def judge (gen : String → String) (prompt : String) (rules : Json) :
    Except PyExn Record :=
  let meta_prompt := metaPrompt prompt rules
  let raw_output := gen meta_prompt
  let clean_output := String.mk (extract_json raw_output.data)
  normalize raw_output clean_output

end CustomMetricLlmJudge

namespace DefaultLlmJudge

/-- Lines 45–55 of `DefaultLlmJudge.judge` given the outcome of
`json.loads(clean_output)`: on failure the fallback record; on success
`{k.lower(): v for k, v in result.items()}`, where `.items()` on a
non-dict raises `AttributeError`. -/
def normalizeParsed (parsed : Option Json) (rawOutput : String) :
    Except PyExn Record :=
  match parsed with
  | none => .ok [("score", .num 0), ("explanation", .str "Failed to parse Judge output."),
      ("raw", .str rawOutput)]
  | some (.obj fields) =>
    .ok (fields.foldl (fun acc kv => dictInsert acc (pyLower kv.1) kv.2) [])
  | some _ => .error .attributeError

/-- Parse-and-normalize on the extracted text. -/
def normalize (rawOutput cleanOutput : String) : Except PyExn Record :=
  normalizeParsed (jsonParse cleanOutput.data) rawOutput

/-- The `DEFAULT_TEMPLATE` literal of llm_judge.py lines 12–19. -/
def DEFAULT_TEMPLATE : String :=
  "You are an impartial evaluation judge. \n" ++
  "Rules:\n\x7brules\x7d\n\n" ++
  "Task Input/Output to Evaluate:\n\x7bprompt\x7d\n\n" ++
  "Evaluate the response based strictly on the rules.\n" ++
  "Output valid JSON ONLY with fields: " ++ pyQuote ++ "score" ++ pyQuote ++
    " (float 0.0-1.0) and " ++ pyQuote ++ "explanation" ++ pyQuote ++ " (string).\n" ++
  "JSON:"

/-- Lines 37–40: the meta-prompt with the default template. -/
def metaPrompt (prompt : String) (rules : Json) : String :=
  String.mk (pyFormat2 DEFAULT_TEMPLATE.length DEFAULT_TEMPLATE.data prompt
    (jsonDumpsIndent2 rules))

/-- Embedding of `DefaultLlmJudge.judge` (lines 36–55) for a backend
that honours its contract. -/
def judge (gen : String → String) (prompt : String) (rules : Json) :
    Except PyExn Record :=
  let meta_prompt := metaPrompt prompt rules
  let raw_output := gen meta_prompt
  let clean_output := String.mk (extract_json raw_output.data)
  normalize raw_output clean_output

end DefaultLlmJudge

/-- Is this value a Python dict? -/
def isObjJson : Json → Bool
  | .obj _ => true
  | _ => false

/-- Does flatten-mode normalization of this parse outcome complete
without raising?  True iff the text failed to parse, or parsed to a
dict whose `evaluation` value is either not a list or a list of
dicts. -/
def flattenSafe : Option Json → Bool
  | none => true
  | some (.obj fields) =>
    match (dictGet fields "evaluation").getD (.arr []) with
    | .arr items => items.all isObjJson
    | _ => true
  | some _ => false

/-- Does simple-mode normalization of this parse outcome complete
without raising?  True iff the text failed to parse or parsed to a
dict. -/
def defaultSafe : Option Json → Bool
  | none => true
  | some (.obj _) => true
  | some _ => false

/-! ## Backend adapters -/

/-- The exception, if any, raised while reading `response.text` in
`GeminiClient._extract_text`. -/
inductive GeminiTextExn where
  | valueError : GeminiTextExn
  | otherExn : GeminiTextExn
deriving DecidableEq

/-- Model of a google-genai response as `_extract_text` observes it:
the `finish_reason`s of its candidates, and the outcome of reading
`.text` (a string, `None`, or an exception). -/
structure GeminiResponse where
  finishReasons : List String
  textResult : Except GeminiTextExn (Option String)

/-- The string `json.dumps({"score": 0.0, "explanation": e})` produces:
the fallback payload shape used throughout `GeminiClient`. -/
def dumpsScoreExpl (explanation : String) : String :=
  "\x7b\"score\": 0.0, \"explanation\": " ++ jsonDumpString explanation ++ "\x7d"

namespace GeminiClient

/-- Steps 64–75 of `GeminiClient._extract_text` after the safety check:
return `.text` when truthy, `""` when falsy or on a generic exception,
and the empty/blocked fallback payload on `ValueError`. -/
def textStep (response : GeminiResponse) : String :=
  match response.textResult with
  | .ok (some t) => if t != "" then t else ""
  | .ok none => ""
  | .error .valueError => dumpsScoreExpl "Empty/Blocked Response"
  | .error .otherExn => ""

/-- Embedding of `GeminiClient._extract_text` (lines 51–75). -/
def extract_text (response : GeminiResponse) : String :=
  match response.finishReasons.head? with
  | some fr =>
    if fr = "SAFETY" then dumpsScoreExpl ("Blocked by Safety Filter (" ++ fr ++ ")")
    else textStep response
  | none => textStep response

/-- Embedding of `GeminiClient.generate` (lines 77–109) given the
outcome of the SDK call: every SDK exception is caught and converted to
the API-error fallback payload, so `generate` is total. -/
def generate (callResult : Except String GeminiResponse) : String :=
  match callResult with
  | .ok response => extract_text response
  | .error e => dumpsScoreExpl ("API Error: " ++ e)

end GeminiClient

/-- Model of a `requests` response as `LMStudioClient.generate` observes
it: HTTP status and body text. -/
structure HttpResponse where
  status : Nat
  bodyText : String

/-- The lookup `j["choices"][0]["message"]["content"]`, as a total
function: `none` exactly when Python would raise a `KeyError`,
`IndexError` or `TypeError` on a `json.loads`-produced value. -/
def digContent (j : Json) : Option Json :=
  match j with
  | .obj fields =>
    match dictGet fields "choices" with
    | some (.arr (c0 :: _)) =>
      match c0 with
      | .obj cf =>
        match dictGet cf "message" with
        | some (.obj mf) => dictGet mf "content"
        | _ => none
      | _ => none
    | _ => none
  | _ => none

namespace LMStudioClient

/-- Embedding of `LMStudioClient.generate` (lines 21–34) given the
outcome of `requests.post`: the post call and `raise_for_status` are
outside any `try`, so network errors and 4xx/5xx statuses propagate, as
does a non-JSON body from `r.json()`; only the extraction of
`choices[0].message.content` is guarded, falling back to the serialized
body. -/
def generate (postResult : Except PyExn HttpResponse) : Except PyExn Json :=
  match postResult with
  | .error e => .error e
  | .ok r =>
    if 400 ≤ r.status && r.status < 600 then .error .httpError
    else
      match jsonParse r.bodyText.data with
      | none => .error .jsonDecodeError
      | some j =>
        match digContent j with
        | some content => .ok content
        | none => .ok (.str (jsonDumpsCompact j))

end LMStudioClient

/-! ## DVC tracker -/

/-- A completed subprocess, as `subprocess.run(..., text=True,
capture_output=True)` returns it. -/
structure CompletedProcess where
  returncode : Int
  stdout : String
  stderr : String

/-- The observable outcome of `DVCDataTracker._run_command`: either the
completed process handed back to the caller, or process termination via
`exit(code)` (`SystemExit`), which carries only the exit code. -/
inductive RunOutcome where
  | result (r : CompletedProcess) : RunOutcome
  | systemExit (code : Nat) : RunOutcome

namespace DVCDataTracker

/-- Embedding of `DVCDataTracker._run_command` (dvc_tracker.py lines
33–47) over an external-command interpretation `exec`:
`subprocess.run(check=check)` raises `CalledProcessError` exactly when
`check` holds and the return code is nonzero; the handler prints the
command and its captured output and calls `exit(1)`.  The prints are
side effects with no data flow and are not modelled. -/
def run_command (exec : List String → CompletedProcess) (command : List String)
    (check : Bool) : RunOutcome :=
  let r := exec command
  if check && r.returncode != 0 then .systemExit 1 else .result r

end DVCDataTracker

/-- A value wrapped in a leading ```` ```json ```` fence line and a
trailing ```` ``` ```` fence line, as the spec's round-trip scenario
describes. -/
def fenceWrap (cs : List Char) : List Char :=
  "```json\n".data ++ cs ++ "\n```".data

/-! ## Helper lemmas -/

/-- Lookup distributes over append, preferring the left list. -/
theorem dictGet_append (d1 d2 : Record) (k : String) :
    dictGet (d1 ++ d2) k = (dictGet d1 k).or (dictGet d2 k) := by
  induction d1 with
  | nil => simp [dictGet]
  | cons hd tl ih =>
    obtain ⟨k1, v1⟩ := hd
    by_cases h : k1 = k <;> simp [dictGet, h, ih]

/-- Overwriting every binding of `k` makes lookup of `k` find the new
value, provided `k` was bound. -/
theorem dictGet_map_overwrite (d : Record) (k : String) (v : Json)
    (h : (dictGet d k).isSome) :
    dictGet (d.map fun kv => if kv.1 = k then (k, v) else kv) k = some v := by
  induction d with
  | nil => simp [dictGet] at h
  | cons hd tl ih =>
    obtain ⟨k1, v1⟩ := hd
    rw [List.map_cons]
    by_cases hk : k1 = k
    · subst hk
      show dictGet ((if k1 = k1 then (k1, v) else (k1, v1)) :: _) k1 = some v
      rw [if_pos rfl]
      simp [dictGet]
    · show dictGet ((if k1 = k then (k, v) else (k1, v1)) :: _) k = some v
      rw [if_neg hk]
      have h' : (dictGet tl k).isSome := by simpa [dictGet, hk] using h
      simp [dictGet, hk, ih h']

/-- Overwriting bindings of `k` leaves lookup of any other key alone. -/
theorem dictGet_map_overwrite_ne (d : Record) (k k' : String) (v : Json)
    (h : k' ≠ k) :
    dictGet (d.map fun kv => if kv.1 = k then (k, v) else kv) k' = dictGet d k' := by
  induction d with
  | nil => simp [dictGet]
  | cons hd tl ih =>
    obtain ⟨k1, v1⟩ := hd
    rw [List.map_cons]
    by_cases hk : k1 = k
    · subst hk
      show dictGet ((if k1 = k1 then (k1, v) else (k1, v1)) :: _) k' = _
      rw [if_pos rfl]
      simp [dictGet, Ne.symm h, ih]
    · show dictGet ((if k1 = k then (k, v) else (k1, v1)) :: _) k' = _
      rw [if_neg hk]
      by_cases hk' : k1 = k'
      · subst hk'
        simp [dictGet]
      · simp [dictGet, hk', ih]

/-- After `d[k] = v`, looking up `k` yields `v`. -/
theorem dictGet_dictInsert_self (d : Record) (k : String) (v : Json) :
    dictGet (dictInsert d k v) k = some v := by
  unfold dictInsert
  by_cases h : (dictGet d k).isSome
  · simpa [h] using dictGet_map_overwrite d k v h
  · have hnone : dictGet d k = none := Option.not_isSome_iff_eq_none.mp h
    simp [h, dictGet_append, hnone, dictGet]

/-- After `d[k] = v`, looking up any other key is unchanged. -/
theorem dictGet_dictInsert_ne (d : Record) (k k' : String) (v : Json)
    (h : k' ≠ k) :
    dictGet (dictInsert d k v) k' = dictGet d k' := by
  unfold dictInsert
  by_cases hs : (dictGet d k).isSome
  · simpa [hs] using dictGet_map_overwrite_ne d k k' v h
  · simp [hs, dictGet_append, dictGet, Ne.symm h, Option.or_none]

/-- Assignment never empties a dict. -/
theorem dictInsert_ne_nil (d : Record) (k : String) (v : Json) :
    dictInsert d k v ≠ [] := by
  unfold dictInsert
  by_cases hs : (dictGet d k).isSome
  · cases d with
    | nil => simp [dictGet] at hs
    | cons hd tl => simp [hs]
  · simp [hs]

/-- Assignment preserves the presence of every key. -/
theorem dictGet_dictInsert_isSome (d : Record) (k k' : String) (v : Json)
    (h : (dictGet d k').isSome) :
    (dictGet (dictInsert d k v) k').isSome := by
  by_cases hk : k' = k
  · subst hk; simp [dictGet_dictInsert_self]
  · rwa [dictGet_dictInsert_ne d k k' v hk]

/-- The two flat keys of one metric never coincide. -/
theorem score_key_ne_rationale_key (s : String) :
    s ++ "_score" ≠ s ++ "_rationale" := by
  intro h
  have h' := congrArg String.data h
  rw [String.data_append, String.data_append] at h'
  exact absurd (List.append_cancel_left h') (by decide)

/-- An item with a falsy (or absent) `metricName` contributes nothing. -/
theorem flattenItem_skip (acc : Record) (item : Record)
    (h : truthy ((dictGet item "metricName").getD .null) = false) :
    flattenItem acc item = acc := by
  simp [flattenItem, h]

/-- An item with a truthy `metricName` binds both of its flat keys to
the item's `score` and `rationale` (each `None` when absent). -/
theorem flattenItem_emits (acc : Record) (item : Record) (mn : Json)
    (hm : (dictGet item "metricName").getD .null = mn) (ht : truthy mn = true) :
    dictGet (flattenItem acc item) (pyStr mn ++ "_score")
        = some ((dictGet item "score").getD .null) ∧
    dictGet (flattenItem acc item) (pyStr mn ++ "_rationale")
        = some ((dictGet item "rationale").getD .null) := by
  unfold flattenItem
  rw [hm, if_pos ht]
  refine ⟨?_, dictGet_dictInsert_self _ _ _⟩
  rw [dictGet_dictInsert_ne _ _ _ _ (score_key_ne_rationale_key (pyStr mn))]
  exact dictGet_dictInsert_self _ _ _

/-- Keys an item does not emit keep their lookup across it. -/
theorem flattenItem_get_ne (acc : Record) (item : Record) (k : String)
    (h : k ∉ itemKeys (.obj item)) :
    dictGet (flattenItem acc item) k = dictGet acc k := by
  unfold flattenItem
  by_cases ht : truthy ((dictGet item "metricName").getD .null) = true
  · have h1 : k ≠ (pyStr ((dictGet item "metricName").getD .null)) ++ "_score" := by
      intro hk; exact h (by simp [itemKeys, ht, hk])
    have h2 : k ≠ (pyStr ((dictGet item "metricName").getD .null)) ++ "_rationale" := by
      intro hk; exact h (by simp [itemKeys, ht, hk])
    rw [if_pos ht, dictGet_dictInsert_ne _ _ _ _ h2, dictGet_dictInsert_ne _ _ _ _ h1]
  · rw [if_neg ht]

/-- An item preserves the presence of every key. -/
theorem flattenItem_isSome_mono (acc : Record) (item : Record) (k : String)
    (h : (dictGet acc k).isSome) :
    (dictGet (flattenItem acc item) k).isSome := by
  unfold flattenItem
  by_cases ht : truthy ((dictGet item "metricName").getD .null) = true
  · rw [if_pos ht]
    exact dictGet_dictInsert_isSome _ _ _ _ (dictGet_dictInsert_isSome _ _ _ _ h)
  · rwa [if_neg ht]

/-- The evaluation loop completes without raising exactly when every
item is a dict. -/
theorem flattenItems_isOk_iff (acc : Record) (items : List Json) :
    (∃ r, flattenItems acc items = .ok r) ↔ items.all isObjJson = true := by
  induction items generalizing acc with
  | nil => simp [flattenItems]
  | cons hd tl ih =>
    cases hd with
    | obj ifields => simpa [flattenItems, isObjJson] using ih (flattenItem acc ifields)
    | null => simp [flattenItems, isObjJson]
    | bool b => simp [flattenItems, isObjJson]
    | num q => simp [flattenItems, isObjJson]
    | str s => simp [flattenItems, isObjJson]
    | arr elts => simp [flattenItems, isObjJson]

/-- Emitted keys of a cons decompose into the head's and the tail's. -/
theorem emittedKeys_cons (hd : Json) (tl : List Json) :
    emittedKeys (hd :: tl) = itemKeys hd ++ emittedKeys tl := by
  simp [emittedKeys]

/-- Keys the evaluation list never emits keep their lookup across the
whole loop. -/
theorem flattenItems_get_ne (items : List Json) (acc r : Record) (k : String)
    (hk : k ∉ emittedKeys items) (h : flattenItems acc items = .ok r) :
    dictGet r k = dictGet acc k := by
  induction items generalizing acc with
  | nil =>
    simp [flattenItems] at h
    subst h; rfl
  | cons hd tl ih =>
    rw [emittedKeys_cons] at hk
    cases hd with
    | obj ifields =>
      simp only [flattenItems] at h
      rw [ih (flattenItem acc ifields) (fun hm => hk (List.mem_append.mpr (Or.inr hm))) h]
      exact flattenItem_get_ne acc ifields k
        (fun hm => hk (List.mem_append.mpr (Or.inl hm)))
    | null => simp [flattenItems] at h
    | bool b => simp [flattenItems] at h
    | num q => simp [flattenItems] at h
    | str s => simp [flattenItems] at h
    | arr elts => simp [flattenItems] at h

/-- The loop preserves the presence of every key. -/
theorem flattenItems_isSome_mono (items : List Json) (acc r : Record) (k : String)
    (h : flattenItems acc items = .ok r) (hs : (dictGet acc k).isSome) :
    (dictGet r k).isSome := by
  induction items generalizing acc with
  | nil =>
    simp [flattenItems] at h
    subst h; exact hs
  | cons hd tl ih =>
    cases hd with
    | obj ifields =>
      simp only [flattenItems] at h
      exact ih (flattenItem acc ifields) h (flattenItem_isSome_mono acc ifields k hs)
    | null => simp [flattenItems] at h
    | bool b => simp [flattenItems] at h
    | num q => simp [flattenItems] at h
    | str s => simp [flattenItems] at h
    | arr elts => simp [flattenItems] at h

/-- Every dict item of the list with a truthy `metricName` has both of
its flat keys present once the loop completes. -/
theorem flattenItems_emits (items : List Json) (acc r : Record) (ifields : Record)
    (hmem : Json.obj ifields ∈ items) (h : flattenItems acc items = .ok r)
    (ht : truthy ((dictGet ifields "metricName").getD .null) = true) :
    (dictGet r (pyStr ((dictGet ifields "metricName").getD .null) ++ "_score")).isSome ∧
    (dictGet r (pyStr ((dictGet ifields "metricName").getD .null) ++ "_rationale")).isSome := by
  induction items generalizing acc with
  | nil => cases hmem
  | cons hd tl ih =>
    cases hd with
    | obj jfields =>
      simp only [flattenItems] at h
      rcases List.mem_cons.mp hmem with heq | hmem'
      · have h2 : ifields = jfields := by injection heq
        subst h2
        have he := flattenItem_emits acc ifields _ rfl ht
        refine ⟨flattenItems_isSome_mono tl _ r _ h ?_,
          flattenItems_isSome_mono tl _ r _ h ?_⟩
        · rw [he.1]; rfl
        · rw [he.2]; rfl
      · exact ih (flattenItem acc jfields) hmem' h
    | null => simp [flattenItems] at h
    | bool b => simp [flattenItems] at h
    | num q => simp [flattenItems] at h
    | str s => simp [flattenItems] at h
    | arr elts => simp [flattenItems] at h

/-- The scalar-copy loop does not touch keys outside the iterated
fields. -/
theorem foldl_scalarStep_get_not_mem (fields : Record) (acc : Record) (k : String)
    (h : k ∉ fields.map Prod.fst) :
    dictGet (fields.foldl scalarStep acc) k = dictGet acc k := by
  induction fields generalizing acc with
  | nil => rfl
  | cons hd tl ih =>
    obtain ⟨k1, v1⟩ := hd
    have hk1 : k ≠ k1 := by
      intro hh; exact h (by simp [hh])
    have htl : k ∉ tl.map Prod.fst := fun hm => h (by simp [hm])
    rw [List.foldl_cons, ih _ htl]
    unfold scalarStep
    by_cases hs : isScalar v1 = true
    · rw [if_pos hs]
      exact dictGet_dictInsert_ne acc k1 k v1 hk1
    · rw [if_neg hs]

/-- For duplicate-free fields, the scalar-copy loop reproduces the
lookup of every scalar field. -/
theorem foldl_scalarStep_get (fields : Record) (acc : Record) (k : String) (v : Json)
    (hnd : (fields.map Prod.fst).Nodup) (hget : dictGet fields k = some v)
    (hsc : isScalar v = true) :
    dictGet (fields.foldl scalarStep acc) k = some v := by
  induction fields generalizing acc with
  | nil => simp [dictGet] at hget
  | cons hd tl ih =>
    obtain ⟨k1, v1⟩ := hd
    by_cases hk : k1 = k
    · subst hk
      have hv : v1 = v := by simpa [dictGet] using hget
      subst hv
      have hnd1 : (k1 :: tl.map Prod.fst).Nodup := by
        rw [List.map_cons] at hnd; exact hnd
      have hnmem : k1 ∉ tl.map Prod.fst := (List.nodup_cons.mp hnd1).1
      rw [List.foldl_cons, foldl_scalarStep_get_not_mem tl _ k1 hnmem]
      unfold scalarStep
      rw [if_pos hsc]
      exact dictGet_dictInsert_self acc k1 v1
    · have hget' : dictGet tl k = some v := by simpa [dictGet, hk] using hget
      have hnd1 : (k1 :: tl.map Prod.fst).Nodup := by
        rw [List.map_cons] at hnd; exact hnd
      have hnd' : (tl.map Prod.fst).Nodup := (List.nodup_cons.mp hnd1).2
      rw [List.foldl_cons]
      exact ih (scalarStep acc (k1, v1)) hnd' hget'

/-- Deleting a binding of any key other than `key` leaves lookup of
`key` alone, wherever the binding sits. -/
theorem dictGet_middle (pre post : Record) (k : String) (v : Json) (key : String)
    (h : k ≠ key) :
    dictGet (pre ++ (k, v) :: post) key = dictGet (pre ++ post) key := by
  rw [dictGet_append, dictGet_append]
  congr 1
  simp [dictGet, h]

/-- Flatten-mode normalization returns a record (rather than raising)
exactly when `flattenSafe` holds of the parse outcome. -/
theorem custom_normalizeParsed_ok_iff (parsed : Option Json) (raw clean : String) :
    (∃ r, CustomMetricLlmJudge.normalizeParsed parsed raw clean = .ok r) ↔
      flattenSafe parsed = true := by
  cases parsed with
  | none => simp [CustomMetricLlmJudge.normalizeParsed, flattenSafe]
  | some v =>
    cases v with
    | obj fields =>
      simp only [CustomMetricLlmJudge.normalizeParsed, flattenSafe]
      cases hev : (dictGet fields "evaluation").getD (.arr []) with
      | arr items =>
        dsimp only
        constructor
        · rintro ⟨r, hr⟩
          cases hfi : flattenItems (flattenScalars fields) items with
          | ok r' => exact (flattenItems_isOk_iff _ _).mp ⟨r', hfi⟩
          | error e => rw [hfi] at hr; cases hr
        · intro hall
          obtain ⟨r', hr'⟩ := (flattenItems_isOk_iff (flattenScalars fields) items).mpr hall
          exact ⟨_, by rw [hr']⟩
      | null => exact ⟨fun _ => rfl, fun _ => ⟨_, rfl⟩⟩
      | bool b => exact ⟨fun _ => rfl, fun _ => ⟨_, rfl⟩⟩
      | num q => exact ⟨fun _ => rfl, fun _ => ⟨_, rfl⟩⟩
      | str s => exact ⟨fun _ => rfl, fun _ => ⟨_, rfl⟩⟩
      | obj g => exact ⟨fun _ => rfl, fun _ => ⟨_, rfl⟩⟩
    | null => simp [CustomMetricLlmJudge.normalizeParsed, flattenSafe]
    | bool b => simp [CustomMetricLlmJudge.normalizeParsed, flattenSafe]
    | num q => simp [CustomMetricLlmJudge.normalizeParsed, flattenSafe]
    | str s => simp [CustomMetricLlmJudge.normalizeParsed, flattenSafe]
    | arr elts => simp [CustomMetricLlmJudge.normalizeParsed, flattenSafe]

/-- Simple-mode normalization returns a record exactly when
`defaultSafe` holds of the parse outcome. -/
theorem default_normalizeParsed_ok_iff (parsed : Option Json) (raw : String) :
    (∃ r, DefaultLlmJudge.normalizeParsed parsed raw = .ok r) ↔
      defaultSafe parsed = true := by
  cases parsed with
  | none => simp [DefaultLlmJudge.normalizeParsed, defaultSafe]
  | some v =>
    cases v with
    | obj fields => simp [DefaultLlmJudge.normalizeParsed, defaultSafe]
    | null => simp [DefaultLlmJudge.normalizeParsed, defaultSafe]
    | bool b => simp [DefaultLlmJudge.normalizeParsed, defaultSafe]
    | num q => simp [DefaultLlmJudge.normalizeParsed, defaultSafe]
    | str s => simp [DefaultLlmJudge.normalizeParsed, defaultSafe]
    | arr elts => simp [DefaultLlmJudge.normalizeParsed, defaultSafe]

/-! ## Claims -/

/-- Claim C1, counterexample.  At the raw output `"x \x7ba\x7d y"` the
extracted text is `"\x7ba\x7d"`, which fails to parse; the flatten-mode
record's `error` field is the sentence `"Failed to parse Judge output"`,
not `"parse_failed"`, and its `raw_output` is the raw pre-extraction
text, not the extracted text; the simple-mode record has no `error`
field (and no `raw_output` field) at all. -/
theorem C1_counterexample :
    CustomMetricLlmJudge.normalize "x \x7ba\x7d y" "\x7ba\x7d"
        = .ok [("error", .str "Failed to parse Judge output"),
            ("raw_output", .str "x \x7ba\x7d y")] ∧
    ("Failed to parse Judge output" : String) ≠ "parse_failed" ∧
    ("x \x7ba\x7d y" : String) ≠ "\x7ba\x7d" ∧
    DefaultLlmJudge.normalize "x \x7ba\x7d y" "\x7ba\x7d"
        = .ok [("score", .num 0), ("explanation", .str "Failed to parse Judge output."),
            ("raw", .str "x \x7ba\x7d y")] ∧
    dictGet [("score", Json.num 0), ("explanation", Json.str "Failed to parse Judge output."),
        ("raw", Json.str "x \x7ba\x7d y")] "error" = none ∧
    dictGet [("score", Json.num 0), ("explanation", Json.str "Failed to parse Judge output."),
        ("raw", Json.str "x \x7ba\x7d y")] "raw_output" = none :=
  ⟨rfl, by decide, by decide, rfl, rfl, rfl⟩

/-- Claim C1, amended.  For every extracted string that fails
structured-data parsing, normalization never raises and returns: in
flatten mode the record `{"error": "Failed to parse Judge output",
"raw_output": <raw pre-extraction text>}`, and in simple mode the
record `{"score": 0.0, "explanation": "Failed to parse Judge output.",
"raw": <raw pre-extraction text>}`. -/
theorem C1_amended (rawOutput cleanOutput : String)
    (h : jsonParse cleanOutput.data = none) :
    CustomMetricLlmJudge.normalize rawOutput cleanOutput
        = .ok [("error", .str "Failed to parse Judge output"),
            ("raw_output", .str rawOutput)] ∧
    DefaultLlmJudge.normalize rawOutput cleanOutput
        = .ok [("score", .num 0), ("explanation", .str "Failed to parse Judge output."),
            ("raw", .str rawOutput)] := by
  unfold CustomMetricLlmJudge.normalize DefaultLlmJudge.normalize
  rw [h]
  exact ⟨rfl, rfl⟩

/-- Witness for C1 at the unparsable extracted text `"oops"`. -/
theorem C1_witness :
    CustomMetricLlmJudge.normalize "oops raw" "oops"
        = .ok [("error", .str "Failed to parse Judge output"),
            ("raw_output", .str "oops raw")] ∧
    DefaultLlmJudge.normalize "oops raw" "oops"
        = .ok [("score", .num 0), ("explanation", .str "Failed to parse Judge output."),
            ("raw", .str "oops raw")] :=
  C1_amended "oops raw" "oops" rfl

/-- Claim C2, counterexample.  The backend `fun _ => "5"` honours its
contract (it always returns a string), yet both judges raise
`AttributeError`: `"5"` parses to the integer `5`, and `.items()` on a
non-dict is outside the `except json.JSONDecodeError` guard. -/
theorem C2_counterexample :
    CustomMetricLlmJudge.judge (fun _ => "5") "subject" (Json.obj [])
        = .error .attributeError ∧
    DefaultLlmJudge.judge (fun _ => "5") "subject" (Json.obj [])
        = .error .attributeError :=
  ⟨rfl, rfl⟩

/-- Claim C2, amended.  For every backend that honours its contract,
`judge` returns a record — absorbing every failure as data — exactly
when the extracted backend output either fails to parse or parses to a
dict (whose `evaluation` list, in flatten mode, holds only dicts);
whenever the extracted text parses to a non-dict (or a flatten-mode
`evaluation` list holds a non-dict item), `judge` raises
`AttributeError` instead. -/
theorem C2_amended (gen : String → String) (prompt : String) (rules : Json) :
    ((∃ r, CustomMetricLlmJudge.judge gen prompt rules = .ok r) ↔
      flattenSafe (jsonParse (CustomMetricLlmJudge.extract_json
        (gen (CustomMetricLlmJudge.metaPrompt prompt rules)).data)) = true) ∧
    ((∃ r, DefaultLlmJudge.judge gen prompt rules = .ok r) ↔
      defaultSafe (jsonParse (DefaultLlmJudge.extract_json
        (gen (DefaultLlmJudge.metaPrompt prompt rules)).data)) = true) :=
  ⟨custom_normalizeParsed_ok_iff _ _ _, default_normalizeParsed_ok_iff _ _⟩

/-- Claim C5, counterexample.  Simple-mode normalization of the valid
object text `"\x7b\x7d"` returns the empty record — violating "always
non-empty" and "always contains either evaluation fields or an error
field" — and simple-mode normalization passes nested sequences through
untouched. -/
theorem C5_counterexample :
    DefaultLlmJudge.normalize "\x7b\x7d" "\x7b\x7d" = .ok [] ∧
    DefaultLlmJudge.normalizeParsed (some (Json.obj [("a", Json.arr [Json.num 1])])) "x"
        = .ok [("a", Json.arr [Json.num 1])] :=
  ⟨rfl, rfl⟩

/-- Claim C5, amended.  Flatten-mode records are always non-empty and
always carry either the string-valued `raw_llm_json` debug field (on
success) or the `error` field (on parse failure); the simple-mode
parse-failure record is the fixed non-empty score/explanation/raw
triple.  (Simple-mode success records are the parsed object's fields
verbatim and may be empty or nested.) -/
theorem C5_amended :
    (∀ (parsed : Option Json) (raw clean : String) (r : Record),
      CustomMetricLlmJudge.normalizeParsed parsed raw clean = .ok r →
      r ≠ [] ∧ (dictGet r "raw_llm_json" = some (.str clean) ∨
        dictGet r "error" = some (.str "Failed to parse Judge output"))) ∧
    (∀ raw : String, DefaultLlmJudge.normalizeParsed none raw
        = .ok [("score", .num 0), ("explanation", .str "Failed to parse Judge output."),
            ("raw", .str raw)]) := by
  constructor
  · intro parsed raw clean r h
    cases parsed with
    | none =>
      simp only [CustomMetricLlmJudge.normalizeParsed, Except.ok.injEq] at h
      subst h
      exact ⟨by simp, Or.inr rfl⟩
    | some v =>
      cases v with
      | obj fields =>
        simp only [CustomMetricLlmJudge.normalizeParsed] at h
        cases hev : (dictGet fields "evaluation").getD (.arr []) with
        | arr items =>
          rw [hev] at h
          dsimp only at h
          cases hfi : flattenItems (flattenScalars fields) items with
          | ok r' =>
            rw [hfi] at h
            simp only [Except.ok.injEq] at h
            subst h
            exact ⟨dictInsert_ne_nil _ _ _, Or.inl (dictGet_dictInsert_self _ _ _)⟩
          | error e => rw [hfi] at h; cases h
        | null =>
          rw [hev] at h
          dsimp only at h
          simp only [Except.ok.injEq] at h
          subst h
          exact ⟨dictInsert_ne_nil _ _ _, Or.inl (dictGet_dictInsert_self _ _ _)⟩
        | bool b =>
          rw [hev] at h
          dsimp only at h
          simp only [Except.ok.injEq] at h
          subst h
          exact ⟨dictInsert_ne_nil _ _ _, Or.inl (dictGet_dictInsert_self _ _ _)⟩
        | num q =>
          rw [hev] at h
          dsimp only at h
          simp only [Except.ok.injEq] at h
          subst h
          exact ⟨dictInsert_ne_nil _ _ _, Or.inl (dictGet_dictInsert_self _ _ _)⟩
        | str s =>
          rw [hev] at h
          dsimp only at h
          simp only [Except.ok.injEq] at h
          subst h
          exact ⟨dictInsert_ne_nil _ _ _, Or.inl (dictGet_dictInsert_self _ _ _)⟩
        | obj g =>
          rw [hev] at h
          dsimp only at h
          simp only [Except.ok.injEq] at h
          subst h
          exact ⟨dictInsert_ne_nil _ _ _, Or.inl (dictGet_dictInsert_self _ _ _)⟩
      | null => cases h
      | bool b => cases h
      | num q => cases h
      | str s => cases h
      | arr elts => cases h
  · intro raw; rfl

/-- Witness for C5 at the empty parsed object: the flatten-mode record
still carries `raw_llm_json` and is non-empty. -/
theorem C5_witness :
    ([("raw_llm_json", Json.str "c")] : Record) ≠ [] ∧
      (dictGet [("raw_llm_json", Json.str "c")] "raw_llm_json" = some (Json.str "c") ∨
        dictGet [("raw_llm_json", Json.str "c")] "error"
          = some (Json.str "Failed to parse Judge output")) :=
  C5_amended.1 (some (Json.obj [])) "r" "c" [("raw_llm_json", Json.str "c")] rfl

/-- Claim C7, counterexample.  The LM Studio adapter propagates ordinary
provider errors: a network failure from `requests.post` and an HTTP 500
status from `raise_for_status` both escape `generate` as exceptions
rather than becoming fallback payloads. -/
theorem C7_counterexample :
    LMStudioClient.generate (.error .connectionError) = .error .connectionError ∧
    LMStudioClient.generate (.ok ⟨500, "any"⟩) = .error .httpError :=
  ⟨rfl, rfl⟩

/-- Claim C7, amended.  The Gemini adapter never raises for provider
errors — SDK exceptions, safety blocks and empty completions all become
JSON-shaped fallback strings carrying score `0.0` and an explanation
(the empty/blocked payload indeed parses to such an object) — but the
LM Studio adapter propagates connection errors, 4xx/5xx statuses and
non-JSON bodies, absorbing only failures of the
`choices[0].message.content` extraction. -/
theorem C7_amended :
    (∀ e : String, GeminiClient.generate (.error e)
        = dumpsScoreExpl ("API Error: " ++ e)) ∧
    (jsonParse (dumpsScoreExpl "Empty/Blocked Response").data
        = some (.obj [("score", .num 0), ("explanation", .str "Empty/Blocked Response")])) ∧
    (∀ (rest : List String) (t : Except GeminiTextExn (Option String)),
      GeminiClient.generate (.ok ⟨"SAFETY" :: rest, t⟩)
        = dumpsScoreExpl "Blocked by Safety Filter (SAFETY)") ∧
    (∀ (fr : String) (rest : List String), fr ≠ "SAFETY" →
      GeminiClient.generate (.ok ⟨fr :: rest, .error .valueError⟩)
        = dumpsScoreExpl "Empty/Blocked Response") ∧
    (∀ (st : Nat) (body : String) (j : Json), ¬(400 ≤ st ∧ st < 600) →
      jsonParse body.data = some j →
      ∃ v, LMStudioClient.generate (.ok ⟨st, body⟩) = .ok v) ∧
    (∀ e : PyExn, LMStudioClient.generate (.error e) = .error e) := by
  refine ⟨fun e => rfl, rfl, fun rest t => rfl, ?_, ?_, fun e => rfl⟩
  · intro fr rest h
    simp only [GeminiClient.generate, GeminiClient.extract_text, List.head?_cons,
      GeminiClient.textStep]
    rw [if_neg h]
  · intro st body j hst hj
    simp only [LMStudioClient.generate]
    rw [if_neg (by simpa using hst), hj]
    dsimp only
    cases hd : digContent j with
    | some content => exact ⟨content, rfl⟩
    | none => exact ⟨Json.str (jsonDumpsCompact j), rfl⟩

/-- Witness for C7: a non-safety candidate with a `ValueError` text
read yields the empty/blocked payload, and a 200-status JSON body never
raises. -/
theorem C7_witness :
    GeminiClient.generate (.ok ⟨["STOP"], .error .valueError⟩)
        = dumpsScoreExpl "Empty/Blocked Response" ∧
    (∃ v, LMStudioClient.generate (.ok ⟨200, "\x7b\x7d"⟩) = .ok v) :=
  ⟨C7_amended.2.2.2.1 "STOP" [] (by decide),
   C7_amended.2.2.2.2.1 200 "\x7b\x7d" (Json.obj []) (by decide) rfl⟩

/-- Claim C8, counterexample.  A failing versioning command does not
surface to the caller as an error value carrying the command and
diagnostics: `_run_command` terminates the process with `exit(1)`,
whose outcome carries only the exit code. -/
theorem C8_counterexample :
    DVCDataTracker.run_command (fun _ => ⟨1, "", "boom: permission denied"⟩)
      ["dvc", "push"] true = .systemExit 1 :=
  rfl

/-- Claim C8, amended.  For every failing external versioning command
(under `check=True`), `_run_command` prints the failed command and its
captured output and terminates the process via `exit(1)` — the caller
never receives an error value and cannot decide to continue; successful
commands, and all commands under `check=False`, return the completed
process. -/
theorem C8_amended (exec : List String → CompletedProcess) (command : List String) :
    ((exec command).returncode ≠ 0 →
      DVCDataTracker.run_command exec command true = .systemExit 1) ∧
    ((exec command).returncode = 0 →
      DVCDataTracker.run_command exec command true = .result (exec command)) ∧
    DVCDataTracker.run_command exec command false = .result (exec command) := by
  refine ⟨fun h => ?_, fun h => ?_, ?_⟩
  · simp [DVCDataTracker.run_command, h]
  · simp [DVCDataTracker.run_command, h]
  · simp [DVCDataTracker.run_command]

/-- Witness for C8 at a concrete failing `dvc pull`. -/
theorem C8_witness :
    DVCDataTracker.run_command (fun _ => ⟨2, "", "ERROR: unable to pull"⟩)
      ["dvc", "pull"] true = .systemExit 1 :=
  (C8_amended (fun _ => ⟨2, "", "ERROR: unable to pull"⟩) ["dvc", "pull"]).1 (by decide)

/-- Claim C10.  In the flatten-mode evaluation loop, an item whose
`metricName` is falsy (absent, `None`, or for example the empty string)
is skipped exactly like a missing one, contributing nothing; an item
with a truthy `metricName` has both `<metricName>_score` and
`<metricName>_rationale` emitted, bound to the item's `score` and
`rationale` values — the `None` placeholder when those fields are
absent. -/
theorem C10_claim (acc : Record) (item : Record) :
    (truthy ((dictGet item "metricName").getD .null) = false →
      flattenItem acc item = acc) ∧
    (∀ mn : Json, dictGet item "metricName" = some mn → truthy mn = true →
      dictGet (flattenItem acc item) (pyStr mn ++ "_score")
          = some ((dictGet item "score").getD Json.null) ∧
      dictGet (flattenItem acc item) (pyStr mn ++ "_rationale")
          = some ((dictGet item "rationale").getD Json.null)) := by
  refine ⟨flattenItem_skip acc item, ?_⟩
  intro mn hm ht
  exact flattenItem_emits acc item mn (by rw [hm]; rfl) ht

/-- Witness for C10: an empty-string `metricName` is skipped, and a
`"tone"` item with no `score`/`rationale` fields still emits both keys
bound to `None`. -/
theorem C10_witness :
    flattenItem [] [("metricName", Json.str "")] = [] ∧
    dictGet (flattenItem [] [("metricName", Json.str "tone")]) ("tone" ++ "_score")
        = some Json.null ∧
    dictGet (flattenItem [] [("metricName", Json.str "tone")]) ("tone" ++ "_rationale")
        = some Json.null := by
  refine ⟨(C10_claim [] [("metricName", Json.str "")]).1 (by decide), ?_, ?_⟩
  · exact ((C10_claim [] [("metricName", Json.str "tone")]).2 (Json.str "tone") rfl
      (by decide)).1
  · exact ((C10_claim [] [("metricName", Json.str "tone")]).2 (Json.str "tone") rfl
      (by decide)).2

/-- Without any left brace the regex search fails. -/
theorem reSearchBraces_none (cs : List Char) (h : lbrace ∉ cs) :
    reSearchBraces cs = none := by
  unfold reSearchBraces
  have hf : cs.findIdx? (fun c => c = lbrace) = none :=
    List.findIdx?_eq_none_iff.mpr (fun x hx => by
      simp only [decide_eq_false_iff_not]
      exact fun hh => h (hh ▸ hx))
  rw [hf]

/-- The regex span: with the first left brace at position `pre.length`
and the last right brace closing `mid`, the match is exactly the
brace-to-brace substring. -/
theorem reSearchBraces_span (pre mid post : List Char)
    (h1 : lbrace ∉ pre) (h2 : rbrace ∉ post) :
    reSearchBraces (pre ++ lbrace :: (mid ++ rbrace :: post))
      = some (lbrace :: (mid ++ [rbrace])) := by
  have hfl : (pre ++ lbrace :: (mid ++ rbrace :: post)).findIdx? (fun c => c = lbrace)
      = some pre.length := by
    rw [List.findIdx?_append]
    have hp : pre.findIdx? (fun c => c = lbrace) = none :=
      List.findIdx?_eq_none_iff.mpr (fun x hx => by
        simp only [decide_eq_false_iff_not]
        exact fun hh => h1 (hh ▸ hx))
    rw [hp, Option.none_or, List.findIdx?_cons]
    simp
  have hrev : (pre ++ lbrace :: (mid ++ rbrace :: post)).reverse
      = post.reverse ++ rbrace :: (mid.reverse ++ lbrace :: pre.reverse) := by
    simp [List.reverse_append]
  have hfr : (pre ++ lbrace :: (mid ++ rbrace :: post)).reverse.findIdx?
      (fun c => c = rbrace) = some post.length := by
    rw [hrev, List.findIdx?_append]
    have hp : post.reverse.findIdx? (fun c => c = rbrace) = none :=
      List.findIdx?_eq_none_iff.mpr (fun x hx => by
        simp only [decide_eq_false_iff_not]
        exact fun hh => h2 (hh ▸ List.mem_reverse.mp hx))
    rw [hp, Option.none_or, List.findIdx?_cons]
    simp
  unfold reSearchBraces
  rw [hfl, hfr]
  dsimp only
  have hlen : (pre ++ lbrace :: (mid ++ rbrace :: post)).length
      = pre.length + mid.length + post.length + 2 := by
    simp [List.length_append]
    omega
  have hj : (pre ++ lbrace :: (mid ++ rbrace :: post)).length - 1 - post.length
      = pre.length + (mid.length + 1) := by
    rw [hlen]; omega
  rw [hj, if_pos (by omega)]
  congr 1
  rw [List.drop_left pre (lbrace :: (mid ++ rbrace :: post))]
  have harith : pre.length + (mid.length + 1) - pre.length + 1 = mid.length + 2 := by omega
  rw [harith]
  have hshape : lbrace :: (mid ++ rbrace :: post) = (lbrace :: mid) ++ (rbrace :: post) := by
    simp
  rw [hshape]
  have hlen2 : mid.length + 2 = (lbrace :: mid).length + 1 := by simp
  rw [hlen2, List.take_append 1]
  simp

/-- Stripping changes nothing when neither end is whitespace. -/
theorem pyStrip_eq_self (cs : List Char)
    (h1 : ∀ c, cs.head? = some c → isPyWs c = false)
    (h2 : ∀ c, cs.getLast? = some c → isPyWs c = false) :
    pyStrip cs = cs := by
  unfold pyStrip
  have e1 : cs.dropWhile isPyWs = cs := by
    cases cs with
    | nil => rfl
    | cons c t => rw [List.dropWhile_cons, if_neg (by rw [h1 c rfl]; simp)]
  rw [e1]
  have e2 : cs.reverse.dropWhile isPyWs = cs.reverse := by
    cases hr : cs.reverse with
    | nil => rfl
    | cons c t =>
      have hc : cs.getLast? = some c := by
        rw [← List.head?_reverse, hr]; rfl
      rw [List.dropWhile_cons, if_neg (by rw [h2 c hc]; simp)]
  rw [e2, List.reverse_reverse]

/-- Every character of the stripped, fence-stripped text is a character
of the original. -/
theorem mem_of_mem_stripFences (cs : List Char) (c : Char)
    (h : c ∈ stripFences cs) : c ∈ cs := by
  have hstrip : ∀ x : Char, ∀ l : List Char, x ∈ pyStrip l → x ∈ l := by
    intro x l hx
    unfold pyStrip at hx
    have h1 := List.mem_reverse.mp hx
    have h2 := (List.dropWhile_suffix isPyWs).sublist.mem h1
    exact (List.dropWhile_suffix isPyWs).sublist.mem (List.mem_reverse.mp h2)
  unfold stripFences at h
  dsimp only at h
  apply hstrip c cs
  split at h <;> (try split at h) <;> (try split at h) <;>
    first
      | exact h
      | exact List.mem_of_mem_drop h
      | exact List.mem_of_mem_take h
      | exact List.mem_of_mem_drop (List.mem_of_mem_drop h)
      | exact List.mem_of_mem_drop (List.mem_of_mem_take h)
      | exact List.mem_of_mem_drop (List.mem_of_mem_drop (List.mem_of_mem_take h))

/-- Claim C4, counterexample.  The simple-mode extractor does not trim:
on `"  hi  "` (no braces) it returns the text with its whitespace, not
the trimmed text.  And on `"\x7d\x7b"`, where both braces are present but
the last `\x7d` precedes the first `\x7b`, the flatten-mode extractor
returns the whole text rather than a first-`\x7b`-to-last-`\x7d`
substring. -/
theorem C4_counterexample :
    DefaultLlmJudge.extract_json "  hi  ".data = "  hi  ".data ∧
    "  hi  ".data ≠ pyStrip "  hi  ".data ∧
    CustomMetricLlmJudge.extract_json "\x7d\x7b".data = "\x7d\x7b".data ∧
    lbrace ∈ "\x7d\x7b".data ∧ rbrace ∈ "\x7d\x7b".data :=
  ⟨rfl, by decide, rfl, by decide, by decide⟩

/-- Claim C4, amended.  The flatten-mode extractor trims and
fence-strips and then: when the stripped text decomposes around a first
`\x7b` and a later last `\x7d`, it returns that brace-to-brace substring;
when the stripped text has no `\x7b` at all, it returns the stripped text
unchanged.  The simple-mode extractor applies the same brace-span rule
to the raw text with no trimming and no fence handling, returning the
input verbatim when it has no `\x7b`. -/
theorem C4_amended :
    (∀ cs pre mid post : List Char,
      stripFences cs = pre ++ lbrace :: (mid ++ rbrace :: post) →
      lbrace ∉ pre → rbrace ∉ post →
      CustomMetricLlmJudge.extract_json cs = lbrace :: (mid ++ [rbrace])) ∧
    (∀ cs : List Char, lbrace ∉ cs →
      CustomMetricLlmJudge.extract_json cs = stripFences cs) ∧
    (∀ cs pre mid post : List Char,
      cs = pre ++ lbrace :: (mid ++ rbrace :: post) →
      lbrace ∉ pre → rbrace ∉ post →
      DefaultLlmJudge.extract_json cs = lbrace :: (mid ++ [rbrace])) ∧
    (∀ cs : List Char, lbrace ∉ cs → DefaultLlmJudge.extract_json cs = cs) := by
  refine ⟨?_, ?_, ?_, ?_⟩
  · intro cs pre mid post hdec h1 h2
    unfold CustomMetricLlmJudge.extract_json
    rw [hdec]
    dsimp only
    rw [reSearchBraces_span pre mid post h1 h2]
  · intro cs h
    have hnb : lbrace ∉ stripFences cs := fun hm => h (mem_of_mem_stripFences cs lbrace hm)
    unfold CustomMetricLlmJudge.extract_json
    dsimp only
    rw [reSearchBraces_none (stripFences cs) hnb]
  · intro cs pre mid post hdec h1 h2
    unfold DefaultLlmJudge.extract_json
    rw [hdec, reSearchBraces_span pre mid post h1 h2]
  · intro cs h
    unfold DefaultLlmJudge.extract_json
    rw [reSearchBraces_none cs h]

/-- Witness for C4: a brace span inside prose is extracted by both
extractors, and brace-free text passes through (stripped in flatten
mode, verbatim in simple mode). -/
theorem C4_witness :
    CustomMetricLlmJudge.extract_json "x \x7ba\x7d y".data
        = lbrace :: ('a' :: [rbrace]) ∧
    DefaultLlmJudge.extract_json "x \x7ba\x7d y".data
        = lbrace :: ('a' :: [rbrace]) ∧
    CustomMetricLlmJudge.extract_json "  hello  ".data = stripFences "  hello  ".data ∧
    DefaultLlmJudge.extract_json "  hello  ".data = "  hello  ".data := by
  refine ⟨?_, ?_, ?_, ?_⟩
  · exact C4_amended.1 "x \x7ba\x7d y".data ['x', ' '] ['a'] [' ', 'y'] (by decide)
      (by decide) (by decide)
  · exact C4_amended.2.2.1 "x \x7ba\x7d y".data ['x', ' '] ['a'] [' ', 'y'] (by decide)
      (by decide) (by decide)
  · exact C4_amended.2.1 "  hello  ".data (by decide)
  · exact C4_amended.2.2.2 "  hello  ".data (by decide)

/-- Fence-stripping a fence-wrapped text recovers the inner text,
newline-padded. -/
theorem stripFences_fenceWrap (s : List Char) :
    stripFences (fenceWrap s) = '\n' :: (s ++ ['\n']) := by
  have hstrip : pyStrip (fenceWrap s) = fenceWrap s := by
    apply pyStrip_eq_self
    · intro c hc
      have hh : (fenceWrap s).head? = some '`' := rfl
      rw [hh] at hc
      injection hc with h
      subst h
      decide
    · intro c hc
      have hh : (fenceWrap s).getLast? = some '`' := by
        unfold fenceWrap
        rw [List.getLast?_append, List.getLast?_append]
        rfl
      rw [hh] at hc
      injection hc with h
      subst h
      decide
  have hpre7 : ("```json".data).isPrefixOf (fenceWrap s) = true := by
    rw [List.isPrefixOf_iff_prefix]
    have hsh : fenceWrap s = "```json".data ++ ('\n' :: (s ++ "\n```".data)) := rfl
    rw [hsh]
    exact List.prefix_append _ _
  have hdrop : (fenceWrap s).drop 7 = '\n' :: (s ++ "\n```".data) := rfl
  have hpre3 : ("```".data).isPrefixOf ('\n' :: (s ++ "\n```".data)) = false := rfl
  have hsuf : ("```".data).isSuffixOf ('\n' :: (s ++ "\n```".data)) = true := by
    unfold List.isSuffixOf
    rw [List.isPrefixOf_iff_prefix]
    have hsh : ('\n' :: (s ++ "\n```".data)).reverse
        = ("```".data).reverse ++ ('\n' :: (s.reverse ++ ['\n'])) := by
      simp
    rw [hsh]
    exact List.prefix_append _ _
  unfold stripFences
  dsimp only
  rw [hstrip, hpre7, if_pos rfl, hdrop, hpre3]
  rw [if_neg (show ¬(false = true) by simp)]
  rw [hsuf, if_pos rfl]
  have hshape : '\n' :: (s ++ "\n```".data) = ('\n' :: (s ++ ['\n'])) ++ "```".data := by
    simp
  have hlen : ('\n' :: (s ++ "\n```".data)).length - 3 = ('\n' :: (s ++ ['\n'])).length := by
    simp
  rw [hlen, hshape, List.take_left]

/-- Claim C6.  For every valid JSON object text (brace-delimited) wrapped
in a leading ```` ```json ```` fence and a trailing ```` ``` ```` fence,
both extractors recover exactly the inner object text, so running
extract and then parsing yields the same structured value as parsing
the inner object directly. -/
theorem C6_roundtrip (mid : List Char) (fields : Record)
    (h : jsonParse (lbrace :: (mid ++ [rbrace])) = some (.obj fields)) :
    CustomMetricLlmJudge.extract_json (fenceWrap (lbrace :: (mid ++ [rbrace])))
        = lbrace :: (mid ++ [rbrace]) ∧
    DefaultLlmJudge.extract_json (fenceWrap (lbrace :: (mid ++ [rbrace])))
        = lbrace :: (mid ++ [rbrace]) ∧
    jsonParse (CustomMetricLlmJudge.extract_json
        (fenceWrap (lbrace :: (mid ++ [rbrace])))) = some (.obj fields) ∧
    jsonParse (DefaultLlmJudge.extract_json
        (fenceWrap (lbrace :: (mid ++ [rbrace])))) = some (.obj fields) := by
  have hcustom : CustomMetricLlmJudge.extract_json (fenceWrap (lbrace :: (mid ++ [rbrace])))
      = lbrace :: (mid ++ [rbrace]) := by
    unfold CustomMetricLlmJudge.extract_json
    dsimp only
    rw [stripFences_fenceWrap]
    have hshape : '\n' :: ((lbrace :: (mid ++ [rbrace])) ++ ['\n'])
        = ['\n'] ++ lbrace :: (mid ++ rbrace :: ['\n']) := by simp
    rw [hshape, reSearchBraces_span ['\n'] mid ['\n'] (by decide) (by decide)]
  have hdefault : DefaultLlmJudge.extract_json (fenceWrap (lbrace :: (mid ++ [rbrace])))
      = lbrace :: (mid ++ [rbrace]) := by
    unfold DefaultLlmJudge.extract_json
    have hshape : fenceWrap (lbrace :: (mid ++ [rbrace]))
        = "```json\n".data ++ lbrace :: (mid ++ rbrace :: "\n```".data) := by
      unfold fenceWrap
      simp
    rw [hshape, reSearchBraces_span "```json\n".data mid "\n```".data
      (by decide) (by decide)]
  exact ⟨hcustom, hdefault, by rw [hcustom]; exact h, by rw [hdefault]; exact h⟩

/-- Witness for C6 at the fenced object text `\x7b"a": "b"\x7d`. -/
theorem C6_witness :
    CustomMetricLlmJudge.extract_json
        (fenceWrap (lbrace :: ("\"a\": \"b\"".data ++ [rbrace])))
        = lbrace :: ("\"a\": \"b\"".data ++ [rbrace]) ∧
    DefaultLlmJudge.extract_json
        (fenceWrap (lbrace :: ("\"a\": \"b\"".data ++ [rbrace])))
        = lbrace :: ("\"a\": \"b\"".data ++ [rbrace]) ∧
    jsonParse (CustomMetricLlmJudge.extract_json
        (fenceWrap (lbrace :: ("\"a\": \"b\"".data ++ [rbrace]))))
        = some (.obj [("a", .str "b")]) ∧
    jsonParse (DefaultLlmJudge.extract_json
        (fenceWrap (lbrace :: ("\"a\": \"b\"".data ++ [rbrace]))))
        = some (.obj [("a", .str "b")]) :=
  C6_roundtrip "\"a\": \"b\"".data [("a", .str "b")] rfl

/-- Claim C9.  In flatten-mode normalization only the field literally
named `evaluation` is flattened: a top-level field with a non-scalar
value under any other name is dropped entirely — deleting it from the
parsed object leaves the output record unchanged. -/
theorem C9_only_evaluation_flattened (raw clean : String) (pre post : Record)
    (k : String) (v : Json) (hk : k ≠ "evaluation") (hv : isScalar v = false) :
    CustomMetricLlmJudge.normalizeParsed (some (.obj (pre ++ (k, v) :: post))) raw clean
      = CustomMetricLlmJudge.normalizeParsed (some (.obj (pre ++ post))) raw clean := by
  have hsc : flattenScalars (pre ++ (k, v) :: post) = flattenScalars (pre ++ post) := by
    unfold flattenScalars
    rw [List.foldl_append, List.foldl_append, List.foldl_cons]
    have hstep : scalarStep (List.foldl scalarStep [] pre) (k, v)
        = List.foldl scalarStep [] pre := by
      unfold scalarStep
      rw [if_neg (by rw [hv]; simp)]
    rw [hstep]
  have hget := dictGet_middle pre post k v "evaluation" hk
  simp only [CustomMetricLlmJudge.normalizeParsed]
  rw [hsc, hget]

/-- Witness for C9: deleting a non-scalar `junk` field does not change
the normalized record. -/
theorem C9_witness :
    CustomMetricLlmJudge.normalizeParsed
        (some (.obj ([("t", Json.str "x")] ++ ("junk", Json.arr [Json.null]) :: [])))
        "r" "c"
      = CustomMetricLlmJudge.normalizeParsed (some (.obj ([("t", Json.str "x")] ++ [])))
        "r" "c" :=
  C9_only_evaluation_flattened "r" "c" [("t", Json.str "x")] [] "junk"
    (Json.arr [Json.null]) (by decide) (by decide)

/-- Claim C3, counterexample.  A top-level field named `metrics` holding
a sequence of objects carrying `metricName`/`score`/`rationale` is not
flattened: only the field literally named `evaluation` is.  The output
holds no `tone_score`/`tone_rationale` keys. -/
theorem C3_counterexample :
    CustomMetricLlmJudge.normalizeParsed
        (some (.obj [("metrics", Json.arr [Json.obj [("metricName", Json.str "tone"),
          ("score", Json.num (mkRat 4 5)), ("rationale", Json.str "ok")]])])) "r" "c"
      = .ok [("raw_llm_json", Json.str "c")] ∧
    dictGet [("raw_llm_json", Json.str "c")] "tone_score" = none ∧
    dictGet [("raw_llm_json", Json.str "c")] "tone_rationale" = none :=
  ⟨rfl, rfl, rfl⟩

/-- Claim C3, amended.  In flatten mode, for every successfully parsed
top-level object: only the field literally named `evaluation` is
flattened; every top-level string/number/boolean field is preserved
as-is provided its key does not collide with `raw_llm_json` or an
emitted metric key (which overwrite it); each evaluation item with a
truthy `metricName` has its two flat keys present in the output; items
with a falsy or missing `metricName` are skipped silently, emitting
nothing; and the spec's example yields `tone_score == 0.8`,
`tone_rationale == "ok"` and no nested `evaluation` field. -/
theorem C3_amended :
    (∀ raw clean : String,
      CustomMetricLlmJudge.normalizeParsed
        (some (.obj [("evaluation", Json.arr [Json.obj [("metricName", Json.str "tone"),
          ("score", Json.num (mkRat 4 5)), ("rationale", Json.str "ok")]])])) raw clean
        = .ok [("tone_score", Json.num (mkRat 4 5)), ("tone_rationale", Json.str "ok"),
            ("raw_llm_json", Json.str clean)]) ∧
    (∀ (fields : Record) (items : List Json) (raw clean : String) (r : Record)
        (k : String) (v : Json),
      CustomMetricLlmJudge.normalizeParsed (some (.obj fields)) raw clean = .ok r →
      (dictGet fields "evaluation").getD (.arr []) = .arr items →
      (fields.map Prod.fst).Nodup →
      dictGet fields k = some v → isScalar v = true →
      k ≠ "raw_llm_json" → k ∉ emittedKeys items →
      dictGet r k = some v) ∧
    (∀ (fields : Record) (items : List Json) (raw clean : String) (r : Record)
        (ifields : Record),
      CustomMetricLlmJudge.normalizeParsed (some (.obj fields)) raw clean = .ok r →
      (dictGet fields "evaluation").getD (.arr []) = .arr items →
      Json.obj ifields ∈ items →
      truthy ((dictGet ifields "metricName").getD .null) = true →
      (dictGet r (pyStr ((dictGet ifields "metricName").getD .null) ++ "_score")).isSome ∧
      (dictGet r (pyStr ((dictGet ifields "metricName").getD .null) ++ "_rationale")).isSome) ∧
    (∀ (acc : Record) (item : Record),
      truthy ((dictGet item "metricName").getD .null) = false →
      flattenItem acc item = acc) := by
  refine ⟨fun raw clean => rfl, ?_, ?_, fun acc item h => flattenItem_skip acc item h⟩
  · intro fields items raw clean r k v h hev hnd hget hsc hk1 hk2
    simp only [CustomMetricLlmJudge.normalizeParsed] at h
    rw [hev] at h
    dsimp only at h
    cases hfi : flattenItems (flattenScalars fields) items with
    | ok r' =>
      rw [hfi] at h
      simp only [Except.ok.injEq] at h
      subst h
      rw [dictGet_dictInsert_ne _ _ _ _ hk1]
      rw [flattenItems_get_ne items (flattenScalars fields) r' k hk2 hfi]
      exact foldl_scalarStep_get fields [] k v hnd hget hsc
    | error e => rw [hfi] at h; cases h
  · intro fields items raw clean r ifields h hev hmem ht
    simp only [CustomMetricLlmJudge.normalizeParsed] at h
    rw [hev] at h
    dsimp only at h
    cases hfi : flattenItems (flattenScalars fields) items with
    | ok r' =>
      rw [hfi] at h
      simp only [Except.ok.injEq] at h
      subst h
      have he := flattenItems_emits items (flattenScalars fields) r' ifields hmem hfi ht
      exact ⟨dictGet_dictInsert_isSome _ _ _ _ he.1, dictGet_dictInsert_isSome _ _ _ _ he.2⟩
    | error e => rw [hfi] at h; cases h

/-- Witness for C3: a scalar `title` field beside an empty evaluation
list is preserved in the output. -/
theorem C3_witness :
    dictGet [("title", Json.str "T"), ("raw_llm_json", Json.str "c")] "title"
      = some (Json.str "T") :=
  C3_amended.2.1 [("title", Json.str "T"), ("evaluation", Json.arr [])] [] "r" "c"
    [("title", Json.str "T"), ("raw_llm_json", Json.str "c")] "title" (Json.str "T")
    rfl rfl (by decide) rfl (by decide) (by decide) (by decide)
